import Mathlib

/-!
Shallow embedding of `mexc_xaut_usdt.py` (MEXC futures XAUT_USDT downloader).

Modelling conventions:
* Upstream HTTP interactions are modelled by quantifying over the sequence of
  responses the server would deliver, in request order (`List KPayload`,
  `List FundingPayload`, or `Nat → Option MexcResp`).  A loop that runs out of
  modelled responses reports `stopped = false`, meaning the real loop would
  have issued at least one more request.
* JSON numeric cell values (prices, volumes) are abstracted as `Option Int`;
  no claim depends on their arithmetic, only on presence/absence and identity.
  The derived `t_iso` column of the Python code is a pure string rendering of
  the `t` column and is not modelled separately.
* `pd.DataFrame` pages are row lists (`List Candle`).  Constructing a frame
  from parallel arrays of unequal length raises in pandas; the decoder model
  returns `none` there (an uncaught exception), and `some rows` otherwise.
* The Python field name `open` is a Lean keyword and is rendered `opn`.
-/

namespace Mexc

/-- `KLINE_MAX = 2000` (line 34): page-size cap per k-line request. -/
def KLINE_MAX : Nat := 2000

/-- The `INTERVAL_SECONDS` dict (lines 139-142), as a partial lookup; callers
use `.getD 60` to mirror `INTERVAL_SECONDS.get(interval, 60)`. -/
def INTERVAL_SECONDS (interval : String) : Option Int :=
  if interval = "Min1" then some 60
  else if interval = "Min5" then some 300
  else if interval = "Min15" then some 900
  else if interval = "Min30" then some 1800
  else if interval = "Min60" then some 3600
  else if interval = "Hour4" then some 14400
  else if interval = "Hour8" then some 28800
  else if interval = "Day1" then some 86400
  else if interval = "Week1" then some 604800
  else if interval = "Month1" then some 2592000
  else none

/-- One row of a decoded k-line DataFrame (columns of `_kline_payload_to_df`,
lines 149-160; `t_iso` omitted as a derived rendering of `t`). -/
structure Candle where
  t : Int
  interval : String
  opn : Option Int
  high : Option Int
  low : Option Int
  close : Option Int
  vol : Option Int
  amount : Option Int
deriving DecidableEq, Repr

/-- The parallel-array k-line payload body: the `time` array plus the six
optional OHLCV arrays (`payload.get(name, ...)`, line 148). -/
structure KlineArrays where
  time : List Int
  opn : Option (List (Option Int))
  high : Option (List (Option Int))
  low : Option (List (Option Int))
  close : Option (List (Option Int))
  vol : Option (List (Option Int))
  amount : Option (List (Option Int))
deriving DecidableEq, Repr

/-- A raw k-line response as `_kline_payload_to_df` (line 145) discriminates
it: not a dict at all, a dict without a `"time"` key, or a dict with one. -/
inductive KPayload where
  | notDict
  | noTimeKey
  | withTime (arrays : KlineArrays)
deriving DecidableEq, Repr

/-- `payload.get(name, [None]*n)` (line 148): a present column is used as-is,
a missing one is a column of `n` nulls. -/
def colD (n : Nat) : Option (List (Option Int)) → List (Option Int)
  | some xs => xs
  | none => List.replicate n none

/-- Pandas accepts a column for an `n`-row frame only when its length is `n`;
a missing column is always acceptable (it is replaced by `[None]*n`). -/
def colLenOk (n : Nat) : Option (List (Option Int)) → Bool
  | some xs => xs.length == n
  | none => true

/-- `_kline_payload_to_df` (lines 144-160): empty frame for a missing/empty
payload; otherwise one row per `time` entry, missing columns null-filled.
`none` models the pandas exception on a present column of the wrong length. -/
def klinePayloadToDf (payload : KPayload) (interval : String) :
    Option (List Candle) :=
  match payload with
  | .notDict => some []
  | .noTimeKey => some []
  | .withTime a =>
    if a.time = [] then some []
    else
      let n := a.time.length
      if colLenOk n a.opn && colLenOk n a.high && colLenOk n a.low &&
         colLenOk n a.close && colLenOk n a.vol && colLenOk n a.amount then
        some ((List.range n).map (fun i =>
          { t := a.time.getD i 0
            interval := interval
            opn := (colD n a.opn).getD i none
            high := (colD n a.high).getD i none
            low := (colD n a.low).getD i none
            close := (colD n a.close).getD i none
            vol := (colD n a.vol).getD i none
            amount := (colD n a.amount).getD i none }))
      else none

/-- The deduplication key of `drop_duplicates(subset=["t","interval"])`
(lines 178 and 209). -/
def candleKey (c : Candle) : Int × String := (c.t, c.interval)

/-- The first record of `l` whose key is `k` (scan from the head). -/
def firstWithKey (k : Int × String) (l : List Candle) : Option Candle :=
  l.find? (fun x => decide (candleKey x = k))

/-- Accumulator form of `drop_duplicates(subset=["t","interval"])` with the
pandas default `keep="first"`: a row is kept iff its key was not seen
earlier. -/
def dedupFirstAux (seen : List (Int × String)) : List Candle → List Candle
  | [] => []
  | c :: cs =>
    if candleKey c ∈ seen then dedupFirstAux seen cs
    else c :: dedupFirstAux (candleKey c :: seen) cs

/-- `drop_duplicates(subset=["t","interval"])` (pandas default keeps the
first occurrence of each key). -/
def dedupFirst (l : List Candle) : List Candle := dedupFirstAux [] l

/-- The `sort_values(["t"])` comparison: ascending by epoch seconds. -/
def candleLe (a b : Candle) : Prop := a.t ≤ b.t

instance : DecidableRel candleLe := fun a b => Int.decLe a.t b.t

instance : IsTotal Candle candleLe := ⟨fun a b => Int.le_total a.t b.t⟩

instance : IsTrans Candle candleLe := ⟨fun _ _ _ h1 h2 => le_trans h1 h2⟩

/-- `sort_values(["t"])`: a sort ascending by `t`.  After deduplication all
keys are distinct, so any correct sort produces the same sequence; an
insertion sort stands in for the pandas quicksort. -/
def sortByT (l : List Candle) : List Candle := List.insertionSort candleLe l

/-- The shared postprocessing of `fetch_kline_range` (line 178) and
`fetch_kline_full_history` (line 209): `drop_duplicates` then `sort_values`. -/
def postprocessKlines (l : List Candle) : List Candle := sortByT (dedupFirst l)

/-- `df["t"].min()` (lines 195, 222, 241); only ever applied to a non-empty
page (the empty case is unreachable behind the `df.empty` check). -/
def minT : List Candle → Int
  | [] => 0
  | c :: cs => cs.foldl (fun m x => min m x.t) c.t

/-- State of a pagination loop when it exits: the accumulated `all_df` pages,
the number of `req_get` calls issued, and whether the loop exited via one of
its own breaks/conditions (`stopped = false` means the modelled response list
ran out while the loop would have issued another request). -/
structure PagedRun where
  pages : List (List Candle)
  requests : Nat
  stopped : Bool
deriving DecidableEq, Repr

/-- Final result of a k-line fetch: the returned DataFrame rows plus the
request count and loop-exit kind of the run that produced them. -/
structure KlineFetchResult where
  df : List Candle
  requests : Nat
  stopped : Bool
deriving DecidableEq, Repr

/-- The backward-pagination `while True` loop of `fetch_kline_full_history`
(lines 188-205): break on an empty page; accumulate; break on a short page
(`len(df) < KLINE_MAX`); break when the page's earliest timestamp has not
strictly decreased (`earliest >= last_min_t`); else recurse with
`last_min_t = earliest`, `end_s = earliest - 1`.  The identical loop bodies
of `fetch_index_kline_full` (lines 215-228) and `fetch_fair_kline_full`
(lines 234-247) are also modelled by this function. -/
def fetchKlineFullHistoryLoop (interval : String) (lastMinT : Option Int)
    (endS : Int) (allDf : List (List Candle)) (reqs : Nat) :
    List KPayload → Option PagedRun
  | [] => some ⟨allDf, reqs, false⟩
  | payload :: rest =>
    match klinePayloadToDf payload interval with
    | none => none
    | some df =>
      if df = [] then some ⟨allDf, reqs + 1, true⟩
      else
        let allDf2 := allDf ++ [df]
        let earliest := minT df
        if df.length < KLINE_MAX then some ⟨allDf2, reqs + 1, true⟩
        else
          match lastMinT with
          | some m =>
            if earliest ≥ m then some ⟨allDf2, reqs + 1, true⟩
            else
              fetchKlineFullHistoryLoop interval (some earliest)
                (earliest - 1) allDf2 (reqs + 1) rest
          | none =>
            fetchKlineFullHistoryLoop interval (some earliest)
              (earliest - 1) allDf2 (reqs + 1) rest

/-- `fetch_kline_full_history` (lines 182-210): run the backward loop from
`end_s`, then concatenate, deduplicate by `(t, interval)` and sort by `t`
(line 209); an empty accumulation returns the empty frame (line 207). -/
def fetchKlineFullHistory (interval : String) (endS : Int)
    (responses : List KPayload) : Option KlineFetchResult :=
  match fetchKlineFullHistoryLoop interval none endS [] 0 responses with
  | none => none
  | some run =>
    if run.pages = [] then some ⟨[], run.requests, run.stopped⟩
    else some ⟨postprocessKlines run.pages.flatten, run.requests, run.stopped⟩

/-- The forward-range `while cur_start <= end_s` loop of `fetch_kline_range`
(lines 167-175): each iteration fetches `[cur_start, min(end_s,
cur_start + step - 1)]`, appends the decoded page unconditionally, and
advances `cur_start = cur_end + 1`. -/
def fetchKlineRangeLoop (interval : String) (step endS : Int) (curStart : Int)
    (allDf : List (List Candle)) (reqs : Nat) :
    List KPayload → Option PagedRun
  | [] =>
    if curStart ≤ endS then some ⟨allDf, reqs, false⟩
    else some ⟨allDf, reqs, true⟩
  | payload :: rest =>
    if curStart ≤ endS then
      let curEnd := min endS (curStart + step - 1)
      match klinePayloadToDf payload interval with
      | none => none
      | some df =>
        fetchKlineRangeLoop interval step endS (curEnd + 1)
          (allDf ++ [df]) (reqs + 1) rest
    else some ⟨allDf, reqs, true⟩

/-- `fetch_kline_range` (lines 162-180): forward stepping with window span
`INTERVAL_SECONDS.get(interval, 60) * KLINE_MAX`, then the same
deduplicate-and-sort postprocessing (line 178); with no accumulated pages it
returns the empty frame (line 180). -/
def fetchKlineRange (interval : String) (startS endS : Int)
    (responses : List KPayload) : Option KlineFetchResult :=
  let step := (INTERVAL_SECONDS interval).getD 60 * (KLINE_MAX : Int)
  match fetchKlineRangeLoop interval step endS startS [] 0 responses with
  | none => none
  | some run =>
    if run.pages = [] then some ⟨[], run.requests, run.stopped⟩
    else some ⟨postprocessKlines run.pages.flatten, run.requests, run.stopped⟩

/-- `fetch_index_kline_full` (lines 212-229): the same backward loop, but the
result is `pd.concat(all_df)` as-is (line 229) — no `drop_duplicates`, no
`sort_values`; an empty accumulation returns an empty frame. -/
def fetchIndexKlineFull (interval : String) (endS : Int)
    (responses : List KPayload) : Option KlineFetchResult :=
  match fetchKlineFullHistoryLoop interval none endS [] 0 responses with
  | none => none
  | some run => some ⟨run.pages.flatten, run.requests, run.stopped⟩

/-- `fetch_fair_kline_full` (lines 231-248): identical to
`fetch_index_kline_full` up to the endpoint path; returns the raw
concatenation (line 248). -/
def fetchFairKlineFull (interval : String) (endS : Int)
    (responses : List KPayload) : Option KlineFetchResult :=
  match fetchKlineFullHistoryLoop interval none endS [] 0 responses with
  | none => none
  | some run => some ⟨run.pages.flatten, run.requests, run.stopped⟩

/-- One accumulated funding-history row (lines 122-127; the derived
`settleTime_iso` string rendering of `settleTime` is not modelled). -/
structure FundingRow where
  symbol : Option String
  fundingRate : Option Int
  settleTime : Option Int
deriving DecidableEq, Repr

/-- A funding-history page response as `get_funding_history` discriminates it
(line 119): either it is not a dict / lacks `"resultList"` (malformed), or it
carries a row list and an optional `totalPage`. -/
inductive FundingPayload where
  | malformed
  | page (resultList : List FundingRow) (totalPage : Option Int)
deriving DecidableEq, Repr

/-- Exit state of the funding-history pagination loop. -/
structure FundingRun where
  rows : List FundingRow
  requests : Nat
  stopped : Bool
deriving DecidableEq, Repr

/-- The `while True` loop of `get_funding_history` (lines 116-133): break on
a malformed page; extend `rows` with `resultList`; `total_page =
data.get("totalPage", page)`; break when `page >= total_page`; else advance
to the next page number. -/
def getFundingHistoryLoop :
    List FundingRow → Int → Nat → List FundingPayload → FundingRun
  | rows, _, reqs, [] => ⟨rows, reqs, false⟩
  | rows, page, reqs, resp :: rest =>
    match resp with
    | .malformed => ⟨rows, reqs + 1, true⟩
    | .page resultList totalPage =>
      let rows2 := rows ++ resultList
      let totalP := totalPage.getD page
      if page ≥ totalP then ⟨rows2, reqs + 1, true⟩
      else getFundingHistoryLoop rows2 (page + 1) (reqs + 1) rest

/-- `get_funding_history` (lines 113-134): paginate from `page = 1` and
return the accumulated rows. -/
def getFundingHistory (responses : List FundingPayload) : FundingRun :=
  getFundingHistoryLoop [] 1 0 responses

/-- A successfully decoded HTTP JSON body, as `req_get` inspects it (line
58): whether it is a dict, which of the `data` / `success` / `code` keys are
present, and abstract identities for the `data` member and the whole value. -/
structure MexcResp where
  isDict : Bool
  hasData : Bool
  hasSuccess : Bool
  hasCode : Bool
  dataField : Int
  whole : Int
deriving DecidableEq, Repr

/-- The envelope normalisation of `req_get` (lines 58-60): a dict carrying
`data` together with `success` or `code` is unwrapped to its `data` member;
anything else is returned whole. -/
def unwrapResp (d : MexcResp) : Int :=
  if d.isDict && d.hasData && (d.hasSuccess || d.hasCode) then d.dataField
  else d.whole

/-- Outcome of a `req_get` call: a returned payload or a re-raised exception
from the final attempt. -/
inductive ReqOutcome where
  | ok (v : Int)
  | raised
deriving DecidableEq, Repr

/-- Trace of one `req_get` call: its outcome, the backoff sleeps issued (in
milliseconds, `0.6 * (attempt + 1)` seconds each), and how many HTTP
attempts were made. -/
structure ReqGetRun where
  result : ReqOutcome
  sleepsMs : List Nat
  attemptsMade : Nat
deriving DecidableEq, Repr

/-- The `for attempt in range(5)` retry loop of `req_get` (lines 53-65):
`tryResult attempt` is the outcome of the HTTP attempt (`none` = any
exception from the request, status check or JSON decode).  A success returns
the normalised payload; a failure on `attempt == 4` re-raises; earlier
failures sleep `0.6 * (attempt + 1)` seconds and retry.  The `return {}`
after the loop (line 65) is dead code, modelled by the unreachable
else-branch. -/
def reqGetLoop (tryResult : Nat → Option MexcResp) (attempt : Nat)
    (sleeps : List Nat) : ReqGetRun :=
  if attempt < 5 then
    match tryResult attempt with
    | some d => ⟨.ok (unwrapResp d), sleeps, attempt + 1⟩
    | none =>
      if attempt = 4 then ⟨.raised, sleeps, attempt + 1⟩
      else reqGetLoop tryResult (attempt + 1) (sleeps ++ [600 * (attempt + 1)])
  else ⟨.ok 0, sleeps, attempt⟩
termination_by 5 - attempt
decreasing_by omega

/-- `req_get` (lines 50-65): run the retry loop from attempt 0. -/
def reqGet (tryResult : Nat → Option MexcResp) : ReqGetRun :=
  reqGetLoop tryResult 0 []

/-- The six output sinks of `MexcWSRecorder` (`self.files`, lines 266-273). -/
inductive SinkId where
  | deal
  | depth
  | ticker
  | index
  | fair
  | funding
deriving DecidableEq, Repr

/-- A JSON-decoded WebSocket message object, with the four lookups
`_on_message` performs on it (lines 330-333); channel-payload values are
abstracted as strings (the code stringifies every field it writes). -/
structure WSObj where
  channel : Option String
  ts : Option Int
  symbol : Option String
  data : List (String × String)
deriving DecidableEq, Repr

/-- An inbound frame: either not decodable as JSON, or a decoded object. -/
inductive WSMessage where
  | undecodable
  | decoded (obj : WSObj)
deriving DecidableEq, Repr

/-- `str(data.get(k, ""))` (lines 338-339 etc.): field lookup in the `data`
dict with the empty string for a missing key. -/
def dget (d : List (String × String)) (k : String) : String :=
  match d.find? (fun kv => kv.1 == k) with
  | some kv => kv.2
  | none => ""

/-- `MexcWSRecorder._on_message` (lines 325-377): an undecodable frame is
dropped (lines 326-329); otherwise the channel tag selects exactly one sink
and one CSV row is appended to it, and an unrecognised tag falls through all
branches appending nothing.  The result lists the `(sink, row)` appends the
call performs.  Python truthiness in `obj.get("ts") or ...` and
`obj.get("symbol") or ...` (lines 331-332) makes `0` and `""` fall back like
a missing key.  (The model covers messages that decode to JSON objects; the
`data` member is modelled as a dict.) -/
def onMessage (selfSymbol : String) (depthLimit : Int) (nowMs : Int) :
    WSMessage → List (SinkId × List String)
  | .undecodable => []
  | .decoded obj =>
    let ch : String := match obj.channel with
      | some c => c
      | none => ""
    let ts : Int := match obj.ts with
      | some v => if v = 0 then nowMs else v
      | none => nowMs
    let sym : String := match obj.symbol with
      | some s => if s = "" then selfSymbol else s
      | none => selfSymbol
    let d := obj.data
    if ch = "push.deal" then
      [(SinkId.deal, [toString ts, sym, dget d "p", dget d "v", dget d "T",
        dget d "O", dget d "M", dget d "t"])]
    else if ch = "push.depth" then
      [(SinkId.depth, [toString ts, sym, toString depthLimit,
        dget d "version", dget d "asks", dget d "bids"])]
    else if ch = "push.ticker" then
      [(SinkId.ticker, [toString ts, sym, dget d "lastPrice", dget d "bid1",
        dget d "ask1", dget d "volume24", dget d "holdVol",
        dget d "indexPrice", dget d "fairPrice", dget d "fundingRate"])]
    else if ch = "push.index.price" then
      [(SinkId.index, [toString ts, sym, dget d "price"])]
    else if ch = "push.fair.price" then
      [(SinkId.fair, [toString ts, sym, dget d "price"])]
    else if ch = "push.funding.rate" then
      [(SinkId.funding, [toString ts, sym, dget d "rate"])]
    else []

/-- The six channel tags `_on_message` recognises. -/
def recognizedChannels : List String :=
  ["push.deal", "push.depth", "push.ticker", "push.index.price",
   "push.fair.price", "push.funding.rate"]

/-- The sink a channel tag routes to, when recognised. -/
def chanSink (ch : String) : Option SinkId :=
  if ch = "push.deal" then some .deal
  else if ch = "push.depth" then some .depth
  else if ch = "push.ticker" then some .ticker
  else if ch = "push.index.price" then some .index
  else if ch = "push.fair.price" then some .fair
  else if ch = "push.funding.rate" then some .funding
  else none

/-- The constructor-set fields of `MexcWSRecorder` relevant to its session
length (lines 255-259). -/
structure MexcWSRecorder where
  symbol : String
  outdir : String
  run_seconds : Int
  depth_limit : Int
deriving DecidableEq, Repr

/-- `MexcWSRecorder.__init__` (lines 255-259): stores the symbol, output
directory and depth limit, and clamps `run_seconds = max(10, run_seconds)`
(line 258). -/
def MexcWSRecorder.init (symbol outdir : String) (run_seconds : Int)
    (depth_limit : Int) : MexcWSRecorder :=
  { symbol := symbol, outdir := outdir,
    run_seconds := max 10 run_seconds, depth_limit := depth_limit }

/-! ### Helper lemmas -/

theorem getD_replicate_of_lt {α : Type} (a d : α) (n i : Nat) (h : i < n) :
    (List.replicate n a).getD i d = a := by
  rw [List.getD_eq_getElem?_getD]
  simp [List.getElem?_replicate, h]

theorem getD_replicate_none (n i : Nat) :
    (List.replicate n (none : Option Int)).getD i none = none := by
  rcases Nat.lt_or_ge i n with h | h
  · exact getD_replicate_of_lt none none n i h
  · rw [List.getD_eq_getElem?_getD]
    simp [List.getElem?_replicate, Nat.not_lt.mpr h]

theorem range_map_eq_replicate {α : Type} (n : Nat) (f : Nat → α) (c : α)
    (h : ∀ j ∈ List.range n, f j = c) :
    (List.range n).map f = List.replicate n c := by
  rw [List.eq_replicate_iff]
  refine ⟨by simp, ?_⟩
  intro b hb
  obtain ⟨j, hj, rfl⟩ := List.mem_map.mp hb
  exact h j hj

theorem foldl_min_replicate (c : Candle) :
    ∀ (k : Nat), (List.replicate k c).foldl (fun m x => min m x.t) c.t = c.t
  | 0 => rfl
  | k + 1 => by
    rw [List.replicate_succ, List.foldl_cons, min_self]
    exact foldl_min_replicate c k

theorem minT_replicate (n : Nat) (c : Candle) :
    minT (List.replicate (n + 1) c) = c.t := by
  rw [List.replicate_succ]
  exact foldl_min_replicate c n

theorem klinePayloadToDf_replicate (n : Nat) (t0 : Int) (interval : String)
    (hn : n ≠ 0) :
    klinePayloadToDf
        (.withTime ⟨List.replicate n t0, none, none, none, none, none, none⟩)
        interval =
      some (List.replicate n
        ⟨t0, interval, none, none, none, none, none, none⟩) := by
  have htime : (List.replicate n t0 : List Int) ≠ [] := by simp [hn]
  simp only [klinePayloadToDf, colLenOk, if_neg htime, Bool.and_self, if_pos,
    List.length_replicate]
  congr 1
  apply range_map_eq_replicate
  intro j hj
  have hjn : j < n := List.mem_range.mp hj
  simp only [colD]
  rw [getD_replicate_of_lt t0 0 n j hjn]
  rw [getD_replicate_none n j]

/-! ### C9: run_seconds clamp -/

/-- C9: the constructor clamps the session duration below at 10 seconds:
`MexcWSRecorder(..., run_seconds=r).run_seconds = max(10, r)`, so it is
always at least 10, requests of at most 10 seconds yield exactly 10, and
requests of at least 10 seconds are honoured unchanged. -/
theorem c9_run_seconds_clamped (symbol outdir : String) (r dl : Int) :
    (MexcWSRecorder.init symbol outdir r dl).run_seconds = max 10 r ∧
    10 ≤ (MexcWSRecorder.init symbol outdir r dl).run_seconds ∧
    (r ≤ 10 → (MexcWSRecorder.init symbol outdir r dl).run_seconds = 10) ∧
    (10 ≤ r → (MexcWSRecorder.init symbol outdir r dl).run_seconds = r) := by
  refine ⟨rfl, le_max_left 10 r, ?_, ?_⟩
  · intro h
    simp [MexcWSRecorder.init, max_eq_left h]
  · intro h
    simp [MexcWSRecorder.init, max_eq_right h]

/-- C9 witness: a request of 3 seconds (also 0 and negative, via the clamp
equation) yields a 10-second session. -/
theorem c9_run_seconds_clamped_witness :
    (MexcWSRecorder.init "XAUT_USDT" "mexc_xaut_usdt" 3 20).run_seconds =
        max 10 3 ∧
      10 ≤ (MexcWSRecorder.init "XAUT_USDT" "mexc_xaut_usdt" 3 20).run_seconds ∧
      ((3 : Int) ≤ 10 →
        (MexcWSRecorder.init "XAUT_USDT" "mexc_xaut_usdt" 3 20).run_seconds = 10) ∧
      ((10 : Int) ≤ 3 →
        (MexcWSRecorder.init "XAUT_USDT" "mexc_xaut_usdt" 3 20).run_seconds = 3) :=
  c9_run_seconds_clamped "XAUT_USDT" "mexc_xaut_usdt" 3 20

/-! ### C10: malformed funding page yields partial results -/

/-- C10: a funding-history page that is not a dict or lacks `"resultList"`
stops the pagination loop at once: the rows accumulated so far are returned
unchanged as a normal result, no further request is issued, and no exception
escapes; in particular one good page followed by a malformed one returns
exactly the good page's rows after 2 requests. -/
theorem c10_malformed_funding_page_partial :
    (∀ (rows : List FundingRow) (page : Int) (reqs : Nat)
        (rest : List FundingPayload),
      getFundingHistoryLoop rows page reqs (FundingPayload.malformed :: rest) =
        ⟨rows, reqs + 1, true⟩) ∧
    (∀ (rl : List FundingRow) (rest : List FundingPayload),
      getFundingHistory
          (FundingPayload.page rl (some 2) :: FundingPayload.malformed :: rest) =
        ⟨rl, 2, true⟩) := by
  constructor
  · intro rows page reqs rest
    rfl
  · intro rl rest
    simp [getFundingHistory, getFundingHistoryLoop]

/-! ### C5: short full-history page is included and ends the loop -/

/-- C5: in full-history mode, a non-empty decoded page strictly smaller than
`KLINE_MAX` is appended to the accumulation and the loop breaks immediately:
the result is independent of any remaining upstream responses and exactly one
further request was counted. -/
theorem c5_short_page_included_and_stops (interval : String)
    (lastMinT : Option Int) (endS : Int) (allDf : List (List Candle))
    (reqs : Nat) (payload : KPayload) (rest : List KPayload)
    (df : List Candle) (hdec : klinePayloadToDf payload interval = some df)
    (hne : df ≠ []) (hlen : df.length < KLINE_MAX) :
    fetchKlineFullHistoryLoop interval lastMinT endS allDf reqs
      (payload :: rest) = some ⟨allDf ++ [df], reqs + 1, true⟩ := by
  simp [fetchKlineFullHistoryLoop, hdec, hne, hlen]

/-- C5 witness: a one-row page (1 < 2000) fetched into an empty accumulation
ends the run at one request, with the page included, ignoring a further
available response. -/
theorem c5_short_page_included_and_stops_witness :
    fetchKlineFullHistoryLoop "Min1" none 99 [] 0
        [KPayload.withTime ⟨[5], none, none, none, none, none, none⟩,
         KPayload.notDict] =
      some ⟨[[⟨5, "Min1", none, none, none, none, none, none⟩]], 1, true⟩ := by
  have h := c5_short_page_included_and_stops "Min1" none 99 [] 0
    (KPayload.withTime ⟨[5], none, none, none, none, none, none⟩)
    [KPayload.notDict] [⟨5, "Min1", none, none, none, none, none, none⟩]
    (by decide) (by decide) (by decide)
  simpa using h

/-! ### C2: the backward-pagination guard bounds the loop -/

/-- C2: the full-history loop cannot be driven forever by a misbehaving API.
First conjunct (the guard): when an iteration's decoded page is non-empty, of
maximum size, and its earliest timestamp is not strictly smaller than the
previous iteration's earliest (`last_min_t`), the loop stops at once — the
result is independent of all remaining upstream responses and exactly one
more request was counted.  Second conjunct (the degenerate API): an upstream
that keeps repeating one full page makes the loop stop after exactly 2
requests, however many repetitions are available. -/
theorem c2_full_history_guard_terminates :
    (∀ (interval : String) (m endS : Int) (allDf : List (List Candle))
        (reqs : Nat) (payload : KPayload) (rest : List KPayload)
        (df : List Candle),
      klinePayloadToDf payload interval = some df → df ≠ [] →
      ¬ df.length < KLINE_MAX → minT df ≥ m →
      fetchKlineFullHistoryLoop interval (some m) endS allDf reqs
        (payload :: rest) = some ⟨allDf ++ [df], reqs + 1, true⟩) ∧
    (∀ (interval : String) (endS : Int) (payload : KPayload)
        (df : List Candle) (k : Nat),
      klinePayloadToDf payload interval = some df → df.length = KLINE_MAX →
      fetchKlineFullHistoryLoop interval none endS [] 0
        (List.replicate (k + 2) payload) = some ⟨[df, df], 2, true⟩) := by
  have guard : ∀ (interval : String) (m endS : Int) (allDf : List (List Candle))
      (reqs : Nat) (payload : KPayload) (rest : List KPayload)
      (df : List Candle),
      klinePayloadToDf payload interval = some df → df ≠ [] →
      ¬ df.length < KLINE_MAX → minT df ≥ m →
      fetchKlineFullHistoryLoop interval (some m) endS allDf reqs
        (payload :: rest) = some ⟨allDf ++ [df], reqs + 1, true⟩ := by
    intro interval m endS allDf reqs payload rest df hdec hne hnlt hge
    simp [fetchKlineFullHistoryLoop, hdec, hne, hnlt, hge]
  refine ⟨guard, ?_⟩
  intro interval endS payload df k hdec hlen
  have hne : df ≠ [] := by
    intro h
    rw [h] at hlen
    simp [KLINE_MAX] at hlen
  have hnlt : ¬ df.length < KLINE_MAX := by omega
  have hrep : List.replicate (k + 2) payload =
      payload :: payload :: List.replicate k payload := by
    simp [List.replicate_succ]
  rw [hrep]
  have step2 := guard interval (minT df) (minT df - 1) [df] 1 payload
    (List.replicate k payload) df hdec hne hnlt le_rfl
  simp [fetchKlineFullHistoryLoop, hdec, hne, hnlt, step2]

/-- C2 witness: a constant upstream page of exactly `KLINE_MAX = 2000` rows
at timestamp 7, offered twice, is consumed in exactly 2 requests and the
loop stops by the guard. -/
theorem c2_full_history_guard_terminates_witness :
    fetchKlineFullHistoryLoop "Min1" none 0 [] 0
        (List.replicate 2 (KPayload.withTime
          ⟨List.replicate 2000 7, none, none, none, none, none, none⟩)) =
      some ⟨[List.replicate 2000 ⟨7, "Min1", none, none, none, none, none, none⟩,
             List.replicate 2000 ⟨7, "Min1", none, none, none, none, none, none⟩],
            2, true⟩ := by
  have h := c2_full_history_guard_terminates.2 "Min1" 0
    (KPayload.withTime ⟨List.replicate 2000 7, none, none, none, none, none, none⟩)
    (List.replicate 2000 ⟨7, "Min1", none, none, none, none, none, none⟩) 0
    (klinePayloadToDf_replicate 2000 7 "Min1" (by decide))
    (List.length_replicate 2000 _)
  exact h

/-! ### C4: funding-history pagination bounds -/

/-- C4 counterexample: the claim's defensive cap does not exist.  A server
whose reported `totalPage` grows with every page (2, 3, 4, 5, ...) keeps the
loop running: after consuming 4 modelled responses — more than the declared
`totalPage = 2` plus one — the loop still has not stopped (`stopped = false`,
i.e. it would issue a 5th request), and with 5 such responses it consumes 5. -/
theorem c4_funding_pagination_cap_cex :
    getFundingHistory
        [FundingPayload.page [] (some 2), FundingPayload.page [] (some 3),
         FundingPayload.page [] (some 4), FundingPayload.page [] (some 5)] =
      ⟨[], 4, false⟩ ∧
    getFundingHistory
        [FundingPayload.page [] (some 2), FundingPayload.page [] (some 3),
         FundingPayload.page [] (some 4), FundingPayload.page [] (some 5),
         FundingPayload.page [] (some 6)] =
      ⟨[], 5, false⟩ := by
  constructor
  · rfl
  · rfl

/-- Consistent-server invariant for the funding loop: with every remaining
page reporting `totalPage = N` and the current page number on schedule, the
loop consumes exactly the remaining pages, accumulates their rows in order,
and stops — ignoring any further available responses. -/
theorem getFundingHistoryLoop_consistent (N : Int) :
    ∀ (rls : List (List FundingRow)) (rows : List FundingRow) (reqs : Nat)
      (page : Int) (extra : List FundingPayload), rls ≠ [] →
      page + (rls.length : Int) = N + 1 → page ≤ N →
      getFundingHistoryLoop rows page reqs
          (rls.map (fun rl => FundingPayload.page rl (some N)) ++ extra) =
        ⟨rows ++ rls.flatten, reqs + rls.length, true⟩ := by
  intro rls
  induction rls with
  | nil => intro rows reqs page extra hne; exact absurd rfl hne
  | cons r rls ih =>
    intro rows reqs page extra _ hsum hle
    cases rls with
    | nil =>
      have hpage : page ≥ N := by
        simp only [List.length_cons, List.length_nil] at hsum
        push_cast at hsum
        omega
      simp [getFundingHistoryLoop, hpage]
    | cons r2 rest =>
      have hlt : ¬ page ≥ N := by
        simp only [List.length_cons] at hsum
        push_cast at hsum
        omega
      have step := ih (rows ++ r) (reqs + 1) (page + 1) extra (by simp)
        (by simp only [List.length_cons] at hsum ⊢; push_cast at hsum ⊢; omega)
        (by simp only [List.length_cons] at hsum; push_cast at hsum; omega)
      have expand : (r :: r2 :: rest).map
            (fun rl => FundingPayload.page rl (some N)) ++ extra =
          FundingPayload.page r (some N) ::
            ((r2 :: rest).map (fun rl => FundingPayload.page rl (some N))
              ++ extra) := by
        simp
      rw [expand]
      generalize hL : (r2 :: rest).map
          (fun rl => FundingPayload.page rl (some N)) ++ extra = L at step ⊢
      simp only [getFundingHistoryLoop, Option.getD_some, if_neg hlt]
      rw [step]
      simp only [FundingRun.mk.injEq, List.flatten_cons, List.append_assoc,
        List.length_cons]
      refine ⟨trivial, by omega, trivial⟩

/-- C4 amended: `get_funding_history` has no defensive iteration cap (see the
counterexample: an inconsistent server whose reported `totalPage` always
exceeds the current page number drives it past `totalPage + 1` requests); but
when the server consistently reports `totalPage = N` on every page, exactly
`N` page requests are issued and iteration stops at page `N`, even when
further responses are available. -/
theorem c4_funding_pagination_consistent (rls : List (List FundingRow))
    (extra : List FundingPayload) (h : rls ≠ []) :
    getFundingHistory
        (rls.map (fun rl => FundingPayload.page rl (some (rls.length : Int)))
          ++ extra) =
      ⟨rls.flatten, rls.length, true⟩ := by
  have h1 : (1 : Int) ≤ (rls.length : Int) := by
    have := List.length_pos.mpr h
    exact_mod_cast this
  have := getFundingHistoryLoop_consistent (rls.length : Int) rls [] 0 1 extra
    h (by omega) h1
  simpa [getFundingHistory] using this

/-- C4 witness: a consistent `totalPage = 2` server with one spare response
is drained in exactly 2 requests and stops at page 2. -/
theorem c4_funding_pagination_consistent_witness :
    getFundingHistory
        ([[({ symbol := some "X", fundingRate := some 1,
              settleTime := some 2 } : FundingRow)], []].map
            (fun rl => FundingPayload.page rl (some ((2 : Nat) : Int)))
          ++ [FundingPayload.page [] (some 99)]) =
      ⟨[{ symbol := some "X", fundingRate := some 1, settleTime := some 2 }],
        2, true⟩ := by
  have h := c4_funding_pagination_consistent
    [[{ symbol := some "X", fundingRate := some 1, settleTime := some 2 }], []]
    [FundingPayload.page [] (some 99)] (by simp)
  simpa using h

/-! ### C6: req_get retry policy -/

/-- The retry loop never records more than 5 attempts, from any start state
with `attempt ≤ 5`. -/
theorem reqGetLoop_attempts_le :
    ∀ (n : Nat) (tr : Nat → Option MexcResp) (attempt : Nat)
      (sleeps : List Nat), 5 - attempt ≤ n → attempt ≤ 5 →
      (reqGetLoop tr attempt sleeps).attemptsMade ≤ 5 := by
  intro n
  induction n with
  | zero =>
    intro tr attempt sleeps h5 hle
    have ha : attempt = 5 := by omega
    subst ha
    rw [reqGetLoop]
    simp
  | succ n ih =>
    intro tr attempt sleeps h5 hle
    rw [reqGetLoop]
    by_cases h : attempt < 5
    · rw [if_pos h]
      cases htr : tr attempt with
      | some d => simp; omega
      | none =>
        by_cases h4 : attempt = 4
        · simp [h4]
        · rw [if_neg h4]
          exact ih tr (attempt + 1) (sleeps ++ [600 * (attempt + 1)])
            (by omega) (by omega)
    · rw [if_neg h]
      simp
      omega

/-- When the first `k` attempts fail and attempt `k` (0-based) succeeds, the
loop returns the unwrapped payload after `k + 1` attempts, having slept
`0.6 * (j + 1)` seconds after each failed attempt `j`. -/
theorem reqGetLoop_first_success :
    ∀ (k : Nat) (tr : Nat → Option MexcResp) (attempt : Nat)
      (sleeps : List Nat) (d : MexcResp), attempt + k < 5 →
      tr (attempt + k) = some d →
      (∀ j, attempt ≤ j → j < attempt + k → tr j = none) →
      reqGetLoop tr attempt sleeps =
        ⟨.ok (unwrapResp d),
         sleeps ++ (List.range' attempt k).map (fun j => 600 * (j + 1)),
         attempt + k + 1⟩ := by
  intro k
  induction k with
  | zero =>
    intro tr attempt sleeps d hlt htr _
    rw [reqGetLoop]
    simp only [Nat.add_zero] at hlt htr
    simp [hlt, htr]
  | succ k ih =>
    intro tr attempt sleeps d hlt htr hnone
    rw [reqGetLoop]
    have h0 : tr attempt = none := hnone attempt le_rfl (by omega)
    have h5 : attempt < 5 := by omega
    have h4 : ¬ attempt = 4 := by omega
    have step := ih tr (attempt + 1) (sleeps ++ [600 * (attempt + 1)]) d
      (by omega)
      (by rw [show attempt + 1 + k = attempt + (k + 1) from by omega]
          exact htr)
      (fun j hj1 hj2 => hnone j (by omega) (by omega))
    simp only [if_pos h5, h0, if_neg h4]
    rw [step]
    have hr : List.range' attempt (k + 1) =
        attempt :: List.range' (attempt + 1) k := rfl
    simp only [ReqGetRun.mk.injEq, hr, List.map_cons, List.append_assoc,
      List.singleton_append]
    refine ⟨trivial, trivial, by omega⟩

/-- Five consecutive failures exhaust the retry budget: the 5th failure is
re-raised after the four backoff sleeps 0.6s, 1.2s, 1.8s, 2.4s. -/
theorem reqGet_all_fail (tr : Nat → Option MexcResp)
    (h : ∀ j, j < 5 → tr j = none) :
    reqGet tr = ⟨.raised, [600, 1200, 1800, 2400], 5⟩ := by
  have h0 := h 0 (by omega)
  have h1 := h 1 (by omega)
  have h2 := h 2 (by omega)
  have h3 := h 3 (by omega)
  have h4 := h 4 (by omega)
  simp [reqGet, reqGetLoop, h0, h1, h2, h3, h4]

/-- C6: `req_get` makes at most 5 HTTP attempts; if the first `k < 5`
attempts fail and attempt `k` succeeds, the normalised payload is returned
after `k + 1` attempts with backoff sleeps of `0.6 * (attempt + 1)` seconds
between attempts; and if all 5 attempts fail, the 5th failure is re-raised
to the caller instead of being retried further. -/
theorem c6_req_get_retry_policy :
    (∀ tr : Nat → Option MexcResp, (reqGet tr).attemptsMade ≤ 5) ∧
    (∀ (tr : Nat → Option MexcResp) (k : Nat) (d : MexcResp),
      k < 5 → tr k = some d → (∀ j, j < k → tr j = none) →
      reqGet tr = ⟨.ok (unwrapResp d),
        (List.range k).map (fun j => 600 * (j + 1)), k + 1⟩) ∧
    (∀ tr : Nat → Option MexcResp, (∀ j, j < 5 → tr j = none) →
      reqGet tr = ⟨.raised, [600, 1200, 1800, 2400], 5⟩) := by
  refine ⟨?_, ?_, reqGet_all_fail⟩
  · intro tr
    exact reqGetLoop_attempts_le 5 tr 0 [] (by omega) (by omega)
  · intro tr k d hk htr hnone
    have h := reqGetLoop_first_success k tr 0 [] d (by omega)
      (by simpa using htr) (fun j hj1 hj2 => hnone j (by omega))
    simpa [reqGet, List.range_eq_range'] using h

/-- C6 witness: failures on attempts 0 and 1 followed by a success on
attempt 2 return the unwrapped payload after 3 attempts and sleeps of 0.6s
and 1.2s; a permanently failing upstream raises after exactly 5 attempts. -/
theorem c6_req_get_retry_policy_witness :
    (reqGet (fun _ => none)).attemptsMade ≤ 5 ∧
    reqGet (fun j => if j = 2 then some ⟨true, true, true, false, 7, 9⟩
        else none) =
      ⟨.ok (unwrapResp ⟨true, true, true, false, 7, 9⟩),
       (List.range 2).map (fun j => 600 * (j + 1)), 3⟩ ∧
    reqGet (fun _ => none) = ⟨.raised, [600, 1200, 1800, 2400], 5⟩ := by
  refine ⟨c6_req_get_retry_policy.1 _, ?_,
    c6_req_get_retry_policy.2.2 _ (fun _ _ => rfl)⟩
  have h := c6_req_get_retry_policy.2.1
    (fun j => if j = 2 then some ⟨true, true, true, false, 7, 9⟩ else none) 2
    ⟨true, true, true, false, 7, 9⟩ (by omega) (by simp)
    (fun j hj => by interval_cases j <;> simp)
  simpa using h

/-! ### C7: decoder tolerance -/

/-- C7: `_kline_payload_to_df` returns an empty record sequence — not an
error — for a non-dict payload, a payload without a `"time"` key, or an
empty `"time"` array; and a payload with `n` timestamps whose present OHLCV
columns are well-formed decodes to exactly `n` records even when columns are
missing, each missing column filled with the null placeholder in every
record. -/
theorem c7_kline_decoder_tolerant :
    (∀ interval : String,
      klinePayloadToDf KPayload.notDict interval = some []) ∧
    (∀ interval : String,
      klinePayloadToDf KPayload.noTimeKey interval = some []) ∧
    (∀ (interval : String) (a : KlineArrays), a.time = [] →
      klinePayloadToDf (KPayload.withTime a) interval = some []) ∧
    (∀ (interval : String) (a : KlineArrays), a.time ≠ [] →
      colLenOk a.time.length a.opn = true →
      colLenOk a.time.length a.high = true →
      colLenOk a.time.length a.low = true →
      colLenOk a.time.length a.close = true →
      colLenOk a.time.length a.vol = true →
      colLenOk a.time.length a.amount = true →
      ∃ df, klinePayloadToDf (KPayload.withTime a) interval = some df ∧
        df.length = a.time.length ∧
        (a.opn = none → ∀ c ∈ df, c.opn = none) ∧
        (a.high = none → ∀ c ∈ df, c.high = none) ∧
        (a.low = none → ∀ c ∈ df, c.low = none) ∧
        (a.close = none → ∀ c ∈ df, c.close = none) ∧
        (a.vol = none → ∀ c ∈ df, c.vol = none) ∧
        (a.amount = none → ∀ c ∈ df, c.amount = none)) := by
  refine ⟨fun _ => rfl, fun _ => rfl, ?_, ?_⟩
  · intro interval a h
    simp [klinePayloadToDf, h]
  · intro interval a hne h1 h2 h3 h4 h5 h6
    simp only [klinePayloadToDf, if_neg hne, h1, h2, h3, h4, h5, h6,
      Bool.and_self, if_pos]
    refine ⟨_, rfl, by simp, ?_, ?_, ?_, ?_, ?_, ?_⟩ <;>
      · intro hnone c hc
        obtain ⟨j, hj, rfl⟩ := List.mem_map.mp hc
        simp [colD, hnone, getD_replicate_none]

/-- C7 witness: two timestamps with only a well-formed `high` column decode
to two records whose other value columns are all null. -/
theorem c7_kline_decoder_tolerant_witness :
    ∃ df, klinePayloadToDf
        (KPayload.withTime
          ⟨[5, 6], none, some [some 1, some 2], none, none, none, none⟩)
        "Min1" = some df ∧
      df.length = ([5, 6] : List Int).length ∧
      ((none : Option (List (Option Int))) = none → ∀ c ∈ df, c.opn = none) ∧
      ((some [some 1, some 2] : Option (List (Option Int))) = none →
        ∀ c ∈ df, c.high = none) ∧
      ((none : Option (List (Option Int))) = none → ∀ c ∈ df, c.low = none) ∧
      ((none : Option (List (Option Int))) = none → ∀ c ∈ df, c.close = none) ∧
      ((none : Option (List (Option Int))) = none → ∀ c ∈ df, c.vol = none) ∧
      ((none : Option (List (Option Int))) = none →
        ∀ c ∈ df, c.amount = none) :=
  c7_kline_decoder_tolerant.2.2.2 "Min1"
    ⟨[5, 6], none, some [some 1, some 2], none, none, none, none⟩
    (by decide) (by decide) (by decide) (by decide) (by decide) (by decide)
    (by decide)

/-! ### C8: stream dispatch -/

/-- The recogniser and the sink map agree: a tag maps to no sink exactly
when it is not one of the six recognised channels. -/
theorem chanSink_eq_none_iff (ch : String) :
    chanSink ch = none ↔ ch ∉ recognizedChannels := by
  unfold chanSink recognizedChannels
  split_ifs with h1 h2 h3 h4 h5 h6 <;> simp_all

/-- C8: `_on_message` drops an undecodable frame with no append and no
error; a decoded message whose channel tag routes to no sink (equivalently,
is not one of the six recognised channels) appends nothing; and a message on
a recognised channel appends exactly one row, to exactly the sink of its
channel. -/
theorem c8_on_message_dispatch :
    (∀ (s : String) (dl nowMs : Int),
      onMessage s dl nowMs WSMessage.undecodable = []) ∧
    (∀ (s : String) (dl nowMs : Int) (obj : WSObj),
      chanSink (obj.channel.getD "") = none →
      onMessage s dl nowMs (WSMessage.decoded obj) = []) ∧
    (∀ (s : String) (dl nowMs : Int) (obj : WSObj) (sink : SinkId),
      chanSink (obj.channel.getD "") = some sink →
      ∃ row, onMessage s dl nowMs (WSMessage.decoded obj) = [(sink, row)]) ∧
    (∀ ch : String, chanSink ch = none ↔ ch ∉ recognizedChannels) := by
  refine ⟨fun _ _ _ => rfl, ?_, ?_, chanSink_eq_none_iff⟩
  · intro s dl nowMs obj h
    cases hch : obj.channel with
    | none =>
      simp [onMessage, hch]
    | some c =>
      rw [hch] at h
      simp only [Option.getD_some] at h
      unfold chanSink at h
      split_ifs at h with h1 h2 h3 h4 h5 h6
      simp [onMessage, hch, h1, h2, h3, h4, h5, h6]
  · intro s dl nowMs obj sink h
    cases hch : obj.channel with
    | none =>
      rw [hch] at h
      simp only [Option.getD_none] at h
      simp [chanSink] at h
    | some c =>
      rw [hch] at h
      simp only [Option.getD_some] at h
      unfold chanSink at h
      split_ifs at h with h1 h2 h3 h4 h5 h6
      · subst h1
        injection h with hs
        subst hs
        simp [onMessage, hch]
      · subst h2
        injection h with hs
        subst hs
        simp [onMessage, hch]
      · subst h3
        injection h with hs
        subst hs
        simp [onMessage, hch]
      · subst h4
        injection h with hs
        subst hs
        simp [onMessage, hch]
      · subst h5
        injection h with hs
        subst hs
        simp [onMessage, hch]
      · subst h6
        injection h with hs
        subst hs
        simp [onMessage, hch]

/-- C8 witness: an undecodable frame and a `push.bogus` message append
nothing; a `push.deal` message appends exactly one row, to the deal sink. -/
theorem c8_on_message_dispatch_witness :
    onMessage "XAUT_USDT" 20 111 WSMessage.undecodable = [] ∧
    onMessage "XAUT_USDT" 20 111
        (WSMessage.decoded ⟨some "push.bogus", some 5, none, []⟩) = [] ∧
    (∃ row, onMessage "XAUT_USDT" 20 111
        (WSMessage.decoded
          ⟨some "push.deal", some 0, some "", [("p", "1833")]⟩) =
      [(SinkId.deal, row)]) ∧
    (chanSink "push.bogus" = none ↔ "push.bogus" ∉ recognizedChannels) :=
  ⟨c8_on_message_dispatch.1 _ _ _,
   c8_on_message_dispatch.2.1 "XAUT_USDT" 20 111
     ⟨some "push.bogus", some 5, none, []⟩ (by decide),
   c8_on_message_dispatch.2.2.1 "XAUT_USDT" 20 111
     ⟨some "push.deal", some 0, some "", [("p", "1833")]⟩ SinkId.deal
     (by decide),
   c8_on_message_dispatch.2.2.2 _⟩

/-! ### Deduplication and sorting lemmas (for C1 and C3) -/

/-- Scanning for a key skips a head record carrying a different key. -/
theorem firstWithKey_cons_of_ne (x : Candle) (xs : List Candle)
    (k : Int × String) (h : candleKey x ≠ k) :
    firstWithKey k (x :: xs) = firstWithKey k xs := by
  simp [firstWithKey, List.find?_cons, h]

/-- Scanning for the head record's own key finds the head record. -/
theorem firstWithKey_cons_self (x : Candle) (xs : List Candle) :
    firstWithKey (candleKey x) (x :: xs) = some x := by
  simp [firstWithKey, List.find?_cons]

/-- Soundness of keep-first deduplication: every survivor's key was unseen,
and the survivor is the first record of the input carrying its key. -/
theorem dedupFirstAux_find :
    ∀ (l : List Candle) (seen : List (Int × String)) (c : Candle),
      c ∈ dedupFirstAux seen l →
      candleKey c ∉ seen ∧ firstWithKey (candleKey c) l = some c := by
  intro l
  induction l with
  | nil => intro seen c hc; exact absurd hc (List.not_mem_nil c)
  | cons x xs ih =>
    intro seen c hc
    by_cases hx : candleKey x ∈ seen
    · rw [dedupFirstAux, if_pos hx] at hc
      obtain ⟨hns, hfind⟩ := ih seen c hc
      have hxc : candleKey x ≠ candleKey c := fun he => hns (he ▸ hx)
      refine ⟨hns, ?_⟩
      rw [firstWithKey_cons_of_ne x xs _ hxc]
      exact hfind
    · rw [dedupFirstAux, if_neg hx] at hc
      rcases List.mem_cons.mp hc with rfl | hmem
      · exact ⟨hx, firstWithKey_cons_self c xs⟩
      · obtain ⟨hns, hfind⟩ := ih (candleKey x :: seen) c hmem
        have hxc : candleKey x ≠ candleKey c := by
          intro he
          exact hns (by simp [he])
        have hns2 : candleKey c ∉ seen := fun he => hns (by simp [he])
        refine ⟨hns2, ?_⟩
        rw [firstWithKey_cons_of_ne x xs _ hxc]
        exact hfind

/-- Completeness of keep-first deduplication: every input record whose key
was not already seen has a survivor with the same key. -/
theorem dedupFirstAux_complete :
    ∀ (l : List Candle) (seen : List (Int × String)) (c : Candle),
      c ∈ l → candleKey c ∉ seen →
      ∃ d ∈ dedupFirstAux seen l, candleKey d = candleKey c := by
  intro l
  induction l with
  | nil => intro seen c hc; exact absurd hc (List.not_mem_nil c)
  | cons x xs ih =>
    intro seen c hc hns
    by_cases hx : candleKey x ∈ seen
    · rw [dedupFirstAux, if_pos hx]
      rcases List.mem_cons.mp hc with rfl | hmem
      · exact absurd hx hns
      · exact ih seen c hmem hns
    · rw [dedupFirstAux, if_neg hx]
      by_cases hkey : candleKey c = candleKey x
      · exact ⟨x, List.mem_cons_self x _, hkey.symm⟩
      · rcases List.mem_cons.mp hc with rfl | hmem
        · exact absurd rfl hkey
        · obtain ⟨d, hd, hdk⟩ := ih (candleKey x :: seen) c hmem
            (by simp [hkey, hns])
          exact ⟨d, List.mem_cons_of_mem x hd, hdk⟩

/-- Keep-first deduplication leaves no two records with equal keys. -/
theorem dedupFirstAux_pairwise :
    ∀ (l : List Candle) (seen : List (Int × String)),
      (dedupFirstAux seen l).Pairwise
        (fun a b => candleKey a ≠ candleKey b) := by
  intro l
  induction l with
  | nil => intro seen; exact List.Pairwise.nil
  | cons x xs ih =>
    intro seen
    by_cases hx : candleKey x ∈ seen
    · rw [dedupFirstAux, if_pos hx]
      exact ih seen
    · rw [dedupFirstAux, if_neg hx]
      refine List.pairwise_cons.mpr ⟨?_, ih (candleKey x :: seen)⟩
      intro b hb
      have := (dedupFirstAux_find xs (candleKey x :: seen) b hb).1
      exact fun he => this (by simp [he])

/-- Sorting preserves membership, so the three dedup facts transfer to the
full postprocessing (dedup then sort). -/
theorem postprocessKlines_spec (l : List Candle) :
    (postprocessKlines l).Pairwise candleLe ∧
    (postprocessKlines l).Pairwise (fun a b => candleKey a ≠ candleKey b) ∧
    (∀ c ∈ postprocessKlines l, firstWithKey (candleKey c) l = some c) ∧
    (∀ c ∈ l, ∃ d ∈ postprocessKlines l, candleKey d = candleKey c) := by
  refine ⟨?_, ?_, ?_, ?_⟩
  · exact List.sorted_insertionSort candleLe (dedupFirst l)
  · have hperm := List.perm_insertionSort candleLe (dedupFirst l)
    exact (hperm.pairwise_iff (fun h he => h he.symm)).mpr
      (dedupFirstAux_pairwise l [])
  · intro c hc
    have hmem : c ∈ dedupFirst l :=
      (List.mem_insertionSort candleLe).mp hc
    exact (dedupFirstAux_find l [] c hmem).2
  · intro c hc
    obtain ⟨d, hd, hdk⟩ :=
      dedupFirstAux_complete l [] c hc (List.not_mem_nil _)
    exact ⟨d, (List.mem_insertionSort candleLe).mpr hd, hdk⟩

/-- Every record a postprocessed sequence contains comes from the input. -/
theorem postprocessKlines_subset (l : List Candle) (c : Candle)
    (hc : c ∈ postprocessKlines l) : c ∈ l :=
  List.mem_of_find?_eq_some ((postprocessKlines_spec l).2.2.1 c hc)

/-- Every record a page decodes to carries the requested interval tag
(line 159 stamps `df["interval"] = interval` on every row). -/
theorem klinePayloadToDf_interval (payload : KPayload) (interval : String)
    (df : List Candle) (h : klinePayloadToDf payload interval = some df) :
    ∀ c ∈ df, c.interval = interval := by
  cases payload with
  | notDict =>
    injection h with h
    subst h
    intro c hc
    exact absurd hc (List.not_mem_nil c)
  | noTimeKey =>
    injection h with h
    subst h
    intro c hc
    exact absurd hc (List.not_mem_nil c)
  | withTime a =>
    by_cases ht : a.time = []
    · simp only [klinePayloadToDf, if_pos ht] at h
      injection h with h
      subst h
      intro c hc
      exact absurd hc (List.not_mem_nil c)
    · simp only [klinePayloadToDf, if_neg ht] at h
      split_ifs at h with hcol
      · injection h with h
        subst h
        intro c hc
        obtain ⟨j, hj, rfl⟩ := List.mem_map.mp hc
        rfl

/-- Invariant of the backward loop: when every accumulated record carries
the requested interval tag, so does every record of the final run. -/
theorem fetchKlineFullHistoryLoop_interval (interval : String) :
    ∀ (responses : List KPayload) (lastMinT : Option Int) (endS : Int)
      (allDf : List (List Candle)) (reqs : Nat) (run : PagedRun),
      (∀ c ∈ allDf.flatten, c.interval = interval) →
      fetchKlineFullHistoryLoop interval lastMinT endS allDf reqs responses =
        some run →
      ∀ c ∈ run.pages.flatten, c.interval = interval := by
  intro responses
  induction responses with
  | nil =>
    intro lastMinT endS allDf reqs run hall h
    simp only [fetchKlineFullHistoryLoop] at h
    injection h with h
    subst h
    exact hall
  | cons payload rest ih =>
    intro lastMinT endS allDf reqs run hall h
    cases hdec : klinePayloadToDf payload interval with
    | none =>
      simp only [fetchKlineFullHistoryLoop, hdec] at h
      exact Option.noConfusion h
    | some df =>
      have hall2 : ∀ c ∈ (allDf ++ [df]).flatten, c.interval = interval := by
        intro c hc
        rw [List.flatten_append] at hc
        rcases List.mem_append.mp hc with hc | hc
        · exact hall c hc
        · refine klinePayloadToDf_interval payload interval df hdec c ?_
          simpa using hc
      cases lastMinT with
      | none =>
        simp only [fetchKlineFullHistoryLoop, hdec] at h
        by_cases hdfe : df = []
        · rw [if_pos hdfe] at h
          injection h with h
          subst h
          exact hall
        · rw [if_neg hdfe] at h
          by_cases hlen : df.length < KLINE_MAX
          · rw [if_pos hlen] at h
            injection h with h
            subst h
            exact hall2
          · rw [if_neg hlen] at h
            exact ih _ _ _ _ _ hall2 h
      | some m =>
        simp only [fetchKlineFullHistoryLoop, hdec] at h
        by_cases hdfe : df = []
        · rw [if_pos hdfe] at h
          injection h with h
          subst h
          exact hall
        · rw [if_neg hdfe] at h
          by_cases hlen : df.length < KLINE_MAX
          · rw [if_pos hlen] at h
            injection h with h
            subst h
            exact hall2
          · rw [if_neg hlen] at h
            by_cases hge : minT df ≥ m
            · rw [if_pos hge] at h
              injection h with h
              subst h
              exact hall2
            · rw [if_neg hge] at h
              exact ih _ _ _ _ _ hall2 h

/-- `fetch_kline_range` always returns the postprocessed concatenation of
the pages its loop accumulated (the empty-accumulation branch returns the
empty frame, which is also the postprocessing of no pages). -/
theorem fetchKlineRange_eq_postprocess (interval : String) (startS endS : Int)
    (responses : List KPayload) (run : PagedRun)
    (h : fetchKlineRangeLoop interval
        ((INTERVAL_SECONDS interval).getD 60 * (KLINE_MAX : Int)) endS startS
        [] 0 responses = some run) :
    fetchKlineRange interval startS endS responses =
      some ⟨postprocessKlines run.pages.flatten, run.requests,
        run.stopped⟩ := by
  have h2 : fetchKlineRange interval startS endS responses =
      (if run.pages = [] then some ⟨[], run.requests, run.stopped⟩
       else some ⟨postprocessKlines run.pages.flatten, run.requests,
         run.stopped⟩) := by
    simp only [fetchKlineRange, h]
  rw [h2]
  by_cases hp : run.pages = []
  · rw [if_pos hp, hp]
    rfl
  · rw [if_neg hp]

/-- `fetch_kline_full_history` always returns the postprocessed
concatenation of the pages its loop accumulated. -/
theorem fetchKlineFullHistory_eq_postprocess (interval : String) (endS : Int)
    (responses : List KPayload) (run : PagedRun)
    (h : fetchKlineFullHistoryLoop interval none endS [] 0 responses =
      some run) :
    fetchKlineFullHistory interval endS responses =
      some ⟨postprocessKlines run.pages.flatten, run.requests,
        run.stopped⟩ := by
  have h2 : fetchKlineFullHistory interval endS responses =
      (if run.pages = [] then some ⟨[], run.requests, run.stopped⟩
       else some ⟨postprocessKlines run.pages.flatten, run.requests,
         run.stopped⟩) := by
    simp only [fetchKlineFullHistory, h]
  rw [h2]
  by_cases hp : run.pages = []
  · rw [if_pos hp, hp]
    rfl
  · rw [if_neg hp]

/-! ### C1: which duplicate survives dedup, and ordering -/

/-- C1 counterexample: the claim says last-seen wins, but pandas
`drop_duplicates` defaults to `keep="first"`.  Two forward-range pages both
carrying key (10, "Min1") — the first with open 1, the second with open 2 —
produce the FIRST record, which differs from the last-seen one, so the
returned sequence is not the one the last-seen rule would give. -/
theorem c1_last_seen_wins_cex :
    fetchKlineRange "Min1" 0 120000
        [KPayload.withTime ⟨[10], some [some 1], none, none, none, none, none⟩,
         KPayload.withTime ⟨[10], some [some 2], none, none, none, none, none⟩] =
      some ⟨[⟨10, "Min1", some 1, none, none, none, none, none⟩], 2, true⟩ ∧
    (⟨10, "Min1", some 1, none, none, none, none, none⟩ : Candle) ≠
      ⟨10, "Min1", some 2, none, none, none, none, none⟩ := by
  constructor
  · decide
  · decide

/-- C1 (amended): for every full-history or forward-range candle backfill,
the returned sequence is the dedup-and-sort postprocessing of the
accumulated pages, which is sorted ascending by epoch seconds and, when the
accumulated pages contain multiple records with the same
(epoch_seconds, interval) key, keeps the FIRST-seen record for that key
(pandas `drop_duplicates` default `keep="first"`), every accumulated key
being represented. -/
theorem c1_dedup_keeps_first_seen :
    (∀ l : List Candle,
      (postprocessKlines l).Pairwise candleLe ∧
      (∀ c ∈ postprocessKlines l, firstWithKey (candleKey c) l = some c) ∧
      (∀ c ∈ l, ∃ d ∈ postprocessKlines l, candleKey d = candleKey c)) ∧
    (∀ (interval : String) (startS endS : Int) (responses : List KPayload)
        (run : PagedRun),
      fetchKlineRangeLoop interval
          ((INTERVAL_SECONDS interval).getD 60 * (KLINE_MAX : Int)) endS
          startS [] 0 responses = some run →
      fetchKlineRange interval startS endS responses =
        some ⟨postprocessKlines run.pages.flatten, run.requests,
          run.stopped⟩) ∧
    (∀ (interval : String) (endS : Int) (responses : List KPayload)
        (run : PagedRun),
      fetchKlineFullHistoryLoop interval none endS [] 0 responses =
        some run →
      fetchKlineFullHistory interval endS responses =
        some ⟨postprocessKlines run.pages.flatten, run.requests,
          run.stopped⟩) := by
  refine ⟨?_, fetchKlineRange_eq_postprocess,
    fetchKlineFullHistory_eq_postprocess⟩
  intro l
  obtain ⟨h1, _, h3, h4⟩ := postprocessKlines_spec l
  exact ⟨h1, h3, h4⟩

/-- C1 witness: a one-page forward-range run returns the postprocessing of
its accumulated single page. -/
theorem c1_dedup_keeps_first_seen_witness :
    fetchKlineRange "Min1" 0 0
        [KPayload.withTime ⟨[10], some [some 1], none, none, none, none,
          none⟩] =
      some ⟨postprocessKlines
          ([[⟨10, "Min1", some 1, none, none, none, none, none⟩]] :
            List (List Candle)).flatten, 1, true⟩ :=
  c1_dedup_keeps_first_seen.2.1 "Min1" 0 0
    [KPayload.withTime ⟨[10], some [some 1], none, none, none, none, none⟩]
    ⟨[[⟨10, "Min1", some 1, none, none, none, none, none⟩]], 1, true⟩
    (by decide)

/-! ### C3: postprocessing of plain vs index/fair backfills -/

/-- C3 counterexample: the index-price and fair-price full backfills do NOT
deduplicate or sort.  A single out-of-order index page [5, 3] is returned
as-is (not strictly ascending), and a fair page [3, 3] is returned with a
duplicated (epoch_seconds, interval) key. -/
theorem c3_index_fair_no_postprocess_cex :
    fetchIndexKlineFull "Min1" 0
        [KPayload.withTime ⟨[5, 3], none, none, none, none, none, none⟩] =
      some ⟨[⟨5, "Min1", none, none, none, none, none, none⟩,
             ⟨3, "Min1", none, none, none, none, none, none⟩], 1, true⟩ ∧
    ¬ ([⟨5, "Min1", none, none, none, none, none, none⟩,
        ⟨3, "Min1", none, none, none, none, none, none⟩] :
          List Candle).Pairwise (fun a b => a.t < b.t) ∧
    fetchFairKlineFull "Min1" 0
        [KPayload.withTime ⟨[3, 3], none, none, none, none, none, none⟩] =
      some ⟨[⟨3, "Min1", none, none, none, none, none, none⟩,
             ⟨3, "Min1", none, none, none, none, none, none⟩], 1, true⟩ ∧
    ¬ ([⟨3, "Min1", none, none, none, none, none, none⟩,
        ⟨3, "Min1", none, none, none, none, none, none⟩] :
          List Candle).Pairwise (fun a b => candleKey a ≠ candleKey b) := by
  refine ⟨by decide, ?_, by decide, ?_⟩
  · intro hp
    have h53 := (List.pairwise_cons.mp hp).1
      ⟨3, "Min1", none, none, none, none, none, none⟩ (by simp)
    exact absurd h53 (by decide)
  · intro hp
    have h33 := (List.pairwise_cons.mp hp).1
      ⟨3, "Min1", none, none, none, none, none, none⟩ (by simp)
    exact h33 rfl

/-- C3 (amended): the deduplicate-and-sort postprocessing applies to the
plain-candle full-history backfill, whose returned series is strictly
ascending by epoch seconds with no duplicate (epoch_seconds, interval) keys
regardless of how many overlapping pages were fetched; but
`fetch_index_kline_full` and `fetch_fair_kline_full` skip it and return the
raw concatenation of their accumulated pages. -/
theorem c3_full_history_strictly_ascending :
    (∀ (interval : String) (endS : Int) (responses : List KPayload)
        (res : KlineFetchResult),
      fetchKlineFullHistory interval endS responses = some res →
      res.df.Pairwise (fun a b => a.t < b.t) ∧
      res.df.Pairwise (fun a b => candleKey a ≠ candleKey b)) ∧
    (∀ (interval : String) (endS : Int) (responses : List KPayload)
        (run : PagedRun),
      fetchKlineFullHistoryLoop interval none endS [] 0 responses =
        some run →
      fetchIndexKlineFull interval endS responses =
        some ⟨run.pages.flatten, run.requests, run.stopped⟩ ∧
      fetchFairKlineFull interval endS responses =
        some ⟨run.pages.flatten, run.requests, run.stopped⟩) := by
  constructor
  · intro interval endS responses res hres
    cases hrun : fetchKlineFullHistoryLoop interval none endS [] 0 responses
      with
    | none =>
      simp only [fetchKlineFullHistory, hrun] at hres
      exact Option.noConfusion hres
    | some run =>
      have heq :=
        fetchKlineFullHistory_eq_postprocess interval endS responses run hrun
      rw [heq] at hres
      injection hres with hres
      subst hres
      obtain ⟨hsort, hkeys, hfirst, _⟩ :=
        postprocessKlines_spec run.pages.flatten
      have hint : ∀ c ∈ run.pages.flatten, c.interval = interval :=
        fetchKlineFullHistoryLoop_interval interval responses none endS [] 0
          run (by simp) hrun
      refine ⟨?_, hkeys⟩
      have hand := hsort.and hkeys
      refine hand.imp_of_mem ?_
      intro a b ha hb hab
      have hal : a ∈ run.pages.flatten := postprocessKlines_subset _ a ha
      have hbl : b ∈ run.pages.flatten := postprocessKlines_subset _ b hb
      have hane : a.t ≠ b.t := by
        intro ht
        apply hab.2
        simp [candleKey, ht, hint a hal, hint b hbl]
      exact lt_of_le_of_ne hab.1 hane
  · intro interval endS responses run hrun
    constructor
    · simp only [fetchIndexKlineFull, hrun]
    · simp only [fetchFairKlineFull, hrun]

/-- C3 witness: a one-page full-history run satisfies the strict ordering
and key-uniqueness guarantees. -/
theorem c3_full_history_strictly_ascending_witness :
    ([⟨5, "Min1", none, none, none, none, none, none⟩] :
        List Candle).Pairwise (fun a b => a.t < b.t) ∧
    ([⟨5, "Min1", none, none, none, none, none, none⟩] :
        List Candle).Pairwise (fun a b => candleKey a ≠ candleKey b) :=
  c3_full_history_strictly_ascending.1 "Min1" 99
    [KPayload.withTime ⟨[5], none, none, none, none, none, none⟩]
    ⟨[⟨5, "Min1", none, none, none, none, none, none⟩], 1, true⟩ (by decide)

end Mexc
